import Mathlib

/-!
Verification of `vcfcomparator.py` (VCF comparator: matching-and-classification
engine, combinatorial summary aggregator, and load-balancing genome segmenter).

The Python source is shallowly embedded below.  A VCF record (a `vcf._Record`
of the external pyvcf library) is modelled by the structure `VCFRec`, keeping
exactly the fields the program reads: CHROM, POS, ID, REF, ALT, QUAL, FILTER,
the INFO entries `SVTYPE`, `END`, `CIPOS`, `CIEND`, `SOMATIC`, `SS`, the
per-sample `SS` genotype field, and the pyvcf type predicates `is_snp`,
`is_indel`, `is_sv`.  The stringified value of `INFO['SS']` is modelled as an
`Option String` (a numeric code 2 is carried as the string "2", exactly what
`str(...)` produces); `INFO.get('SS')` being absent corresponds to `none` (in
Python `str(None).upper() == "NONE"`, which matches none of the compared
values, and the model reproduces that).  External random-access fetches are
modelled as functions producing the (finite) list of records the fetch yields.
-/

namespace VCFComp

/-- Model of a pyvcf record, restricted to the fields `vcfcomparator.py` reads. -/
structure VCFRec where
  chrom : String
  pos : Int
  id : String
  ref : String
  alt : List String
  qual : Int
  filter : List String
  is_snp : Bool
  is_indel : Bool
  is_sv : Bool
  svtype : Option String
  info_end : Option Int
  cipos : Option (List Int)
  ciend : Option (List Int)
  somatic : Bool
  ss : Option String
  sample_ss : List String
deriving DecidableEq, Repr

/-- `get_conf_interval(rec, w_indel=0)` (source lines 335-368).
`CIPOS`/`CIEND` destructure as in the source: a two-element value gives the
two flanks via `map(abs, ...)`, otherwise element 0 is used for both flanks
(a present `CIPOS`/`CIEND` is never empty in a VCF; the empty case, an
`IndexError` in the source, is given the neutral flanks).  The end defaults
to `POS+1` plus the CIPOS end flank; a present `END` replaces it with
`END` plus the CIEND end flank.  For an indel, `w_indel` is added to the
start-side widen and to the end. -/
def get_conf_interval (rec : VCFRec) (w_indel : Int) : Int × Int :=
  let cp : Int × Int :=
    match rec.cipos with
    | none => (0, 0)
    | some [x, y] => (|x|, |y|)
    | some (x :: _) => (|x|, |x|)
    | some [] => (0, 0)
  let ce : Int × Int :=
    match rec.ciend with
    | none => (0, 0)
    | some [x, y] => (|x|, |y|)
    | some (x :: _) => (|x|, |x|)
    | some [] => (0, 0)
  let e0 : Int :=
    match rec.info_end with
    | some e => e + ce.2
    | none => rec.pos + 1 + cp.2
  let cs : Int := if rec.is_indel then cp.1 + w_indel else cp.1
  let e1 : Int := if rec.is_indel then e0 + w_indel else e0
  (rec.pos - cs, e1)

/-- The `(cipos_start, cipos_end)` flank pair computed by `get_conf_interval`. -/
def ciposFlanks (rec : VCFRec) : Int × Int :=
  match rec.cipos with
  | none => (0, 0)
  | some [x, y] => (|x|, |y|)
  | some (x :: _) => (|x|, |x|)
  | some [] => (0, 0)

/-- The `(ciend_start, ciend_end)` flank pair computed by `get_conf_interval`. -/
def ciendFlanks (rec : VCFRec) : Int × Int :=
  match rec.ciend with
  | none => (0, 0)
  | some [x, y] => (|x|, |y|)
  | some (x :: _) => (|x|, |x|)
  | some [] => (0, 0)

/-- `get_overlap_coords(iv_a, iv_b)` (source lines 370-376): the intersection
of two half-open intervals when its length is positive, else the `(0,0)`
sentinel. -/
def get_overlap_coords (iv_a iv_b : Int × Int) : Int × Int :=
  if min iv_a.2 iv_b.2 - max iv_a.1 iv_b.1 > 0 then
    (max iv_a.1 iv_b.1, min iv_a.2 iv_b.2)
  else (0, 0)

lemma ciposFlanks_nonneg (rec : VCFRec) :
    0 ≤ (ciposFlanks rec).1 ∧ 0 ≤ (ciposFlanks rec).2 := by
  unfold ciposFlanks
  rcases rec.cipos with _ | (_ | ⟨x, _ | ⟨y, _ | ⟨z, l⟩⟩⟩) <;>
    exact ⟨by simp [abs_nonneg], by simp [abs_nonneg]⟩

lemma ciendFlanks_nonneg (rec : VCFRec) :
    0 ≤ (ciendFlanks rec).1 ∧ 0 ≤ (ciendFlanks rec).2 := by
  unfold ciendFlanks
  rcases rec.ciend with _ | (_ | ⟨x, _ | ⟨y, _ | ⟨z, l⟩⟩⟩) <;>
    exact ⟨by simp [abs_nonneg], by simp [abs_nonneg]⟩

lemma get_conf_interval_eq (rec : VCFRec) (w : Int) :
    get_conf_interval rec w =
      (rec.pos - (ciposFlanks rec).1 - (if rec.is_indel then w else 0),
       (match rec.info_end with
        | some e => e + (ciendFlanks rec).2
        | none => rec.pos + 1 + (ciposFlanks rec).2) +
         (if rec.is_indel then w else 0)) := by
  unfold get_conf_interval ciposFlanks ciendFlanks
  rcases h : rec.is_indel <;> rcases rec.info_end <;> simp [h] <;> ring

/-- C8: for every pair of intervals, `get_overlap_coords` returns the `(0,0)`
sentinel iff the true intersection length (`min` of the ends minus `max` of
the starts) is nonpositive; in every other case it returns exactly the
intersection bounds `(max of starts, min of ends)`. -/
theorem overlap_sentinel_iff (a b : Int × Int) :
    (get_overlap_coords a b = (0, 0) ↔ min a.2 b.2 - max a.1 b.1 ≤ 0) ∧
    (get_overlap_coords a b = (0, 0) ∨
      get_overlap_coords a b = (max a.1 b.1, min a.2 b.2)) := by
  unfold get_overlap_coords
  by_cases h : min a.2 b.2 - max a.1 b.1 > 0
  · rw [if_pos h]
    refine ⟨⟨fun he => ?_, fun hle => ?_⟩, Or.inr rfl⟩
    · have h1 : max a.1 b.1 = 0 := congrArg Prod.fst he
      have h2 : min a.2 b.2 = 0 := congrArg Prod.snd he
      omega
    · exfalso; omega
  · rw [if_neg h]
    exact ⟨⟨fun _ => by omega, fun _ => rfl⟩, Or.inl rfl⟩

/-- C10: for every record whose INFO mapping has no `END` entry and every
nonnegative `w_indel`, the interval returned by `get_conf_interval` has
strictly positive length: its end `POS + 1 + cipos_end (+ w_indel)` strictly
exceeds its start `POS - cipos_start (- w_indel)`, because the flanks are
absolute values.  Hence the `len > 0` assertions of
`Variant.interval_score` (source lines 84-87) cannot fail on such records. -/
theorem conf_interval_positive_length (rec : VCFRec) (w : Int)
    (hend : rec.info_end = none) (hw : 0 ≤ w) :
    (get_conf_interval rec w).1 < (get_conf_interval rec w).2 := by
  have h := get_conf_interval_eq rec w
  have h1 := (ciposFlanks_nonneg rec).1
  have h2 := (ciposFlanks_nonneg rec).2
  rw [h, hend]
  rcases rec.is_indel <;> simp <;> omega

/-- Witness for C10 at a concrete record with no `END` entry and `w_indel = 0`. -/
theorem conf_interval_positive_length_witness :
    (⟨"chr1", 100, "v1", "A", ["T"], 50, [], true, false, false,
       none, none, none, none, false, none, []⟩ : VCFRec).info_end = none ∧
    (0 : Int) ≤ 0 ∧
    (get_conf_interval
      (⟨"chr1", 100, "v1", "A", ["T"], 50, [], true, false, false,
        none, none, none, none, false, none, []⟩ : VCFRec) 0).1 <
    (get_conf_interval
      (⟨"chr1", 100, "v1", "A", ["T"], 50, [], true, false, false,
        none, none, none, none, false, none, []⟩ : VCFRec) 0).2 :=
  ⟨rfl, le_refl 0, conf_interval_positive_length _ 0 rfl (le_refl 0)⟩

/-- Definition following the words of claim C7 ("the CIPOS flank is subtracted
from the start and the CIEND flank is added to the end", with `END`
replacing `POS+1` as base end and `w_indel` added to both sides for indels);
written only to be compared with the source's `get_conf_interval`. -/
def conf_interval_claimC7 (rec : VCFRec) (w_indel : Int) : Int × Int :=
  let base_end : Int :=
    match rec.info_end with
    | some e => e
    | none => rec.pos + 1
  let wi : Int := if rec.is_indel then w_indel else 0
  (rec.pos - (ciposFlanks rec).1 - wi, base_end + (ciendFlanks rec).2 + wi)

/-- Record used to refute claim C7: no `END`, no `CIPOS`, `CIEND = [5, 5]`. -/
def cexC7rec : VCFRec :=
  ⟨"chr1", 100, "v7", "A", ["<DUP>"], 50, [], false, false, true,
    some "DUP", none, none, some [5, 5], false, none, []⟩

/-- C7 counterexample: on a record with no `END` entry and `CIEND = [5,5]`,
the source computes the interval `(100, 101)` — the CIEND flank is ignored —
while the claim's reading ("the CIEND flank is added to the end") yields
`(100, 106)`. -/
theorem conf_interval_counterexample :
    get_conf_interval cexC7rec 0 = (100, 101) ∧
    conf_interval_claimC7 cexC7rec 0 = (100, 106) ∧
    ((100 : Int), (101 : Int)) ≠ ((100 : Int), (106 : Int)) := by
  refine ⟨by decide, by decide, by decide⟩

/-- C7 (amended): `get_conf_interval` returns the base interval `[POS, POS+1)`
with the CIPOS start flank subtracted from the start; when `END` is present
the end is `END` plus the CIEND end flank, and when `END` is absent the end is
`POS + 1` plus the **CIPOS** end flank (CIEND is then ignored); a
single-valued confidence field is treated as symmetric, all flank magnitudes
are absolute values, and for an indel `w_indel` is added to the start-side
widen and to the end. -/
theorem conf_interval_characterization :
    (∀ (rec : VCFRec) (w : Int),
      (get_conf_interval rec w).1 =
        rec.pos - (ciposFlanks rec).1 - (if rec.is_indel then w else 0) ∧
      (get_conf_interval rec w).2 =
        (match rec.info_end with
         | some e => e + (ciendFlanks rec).2
         | none => rec.pos + 1 + (ciposFlanks rec).2) +
          (if rec.is_indel then w else 0)) ∧
    (∀ rec : VCFRec, 0 ≤ (ciposFlanks rec).1 ∧ 0 ≤ (ciposFlanks rec).2 ∧
      0 ≤ (ciendFlanks rec).1 ∧ 0 ≤ (ciendFlanks rec).2) ∧
    (∀ (rec : VCFRec) (x : Int),
      ciposFlanks { rec with cipos := some [x] } = (|x|, |x|) ∧
      ciendFlanks { rec with ciend := some [x] } = (|x|, |x|)) := by
  refine ⟨fun rec w => ?_, fun rec => ?_, fun rec x => ⟨rfl, rfl⟩⟩
  · have h := get_conf_interval_eq rec w
    exact ⟨congrArg Prod.fst h, congrArg Prod.snd h⟩
  · exact ⟨(ciposFlanks_nonneg rec).1, (ciposFlanks_nonneg rec).2,
      (ciendFlanks_nonneg rec).1, (ciendFlanks_nonneg rec).2⟩

/-- `Variant` (source lines 53-62): one record pair.  `recA` is always a
record when the comparator constructs a pair, so it is not optional here;
`recB` and `recT` start unset and `altmatch` starts empty. -/
structure Variant where
  recA : VCFRec
  recB : Option VCFRec
  recT : Option VCFRec
  altmatch : List VCFRec
deriving DecidableEq, Repr

/-- `Variant.set_left` (source lines 67-72): sets `recB` only if unset,
returning whether it was set. -/
def Variant.set_left (v : Variant) (b : VCFRec) : Variant × Bool :=
  match v.recB with
  | none => ({ v with recB := some b }, true)
  | some _ => (v, false)

/-- `Variant.matched` (source lines 104-107); `recA` is always present. -/
def Variant.matched (v : Variant) : Bool := v.recB.isSome

/-- `Variant.is_true` (source lines 109-112). -/
def Variant.is_true (v : Variant) : Bool := v.recT.isSome

/-- `Variant.recA_pass` (source lines 199-204): pass iff FILTER is empty. -/
def Variant.recA_pass (v : Variant) : Bool := v.recA.filter.isEmpty

/-- `Variant.recB_pass` (source lines 206-211). -/
def Variant.recB_pass (v : Variant) : Bool :=
  match v.recB with
  | none => false
  | some r => r.filter.isEmpty

/-- ASCII uppercase of a string, written structurally so that it evaluates
by kernel reduction; agrees with Python's `.upper()` on the ASCII data the
program compares SS values against. -/
def toUpperStr (s : String) : String :=
  String.mk (s.data.map Char.toUpper)

/-- The value `str(rec.INFO.get('SS')).upper()`: "NONE" when the SS info
field is absent (Python's `str(None)` is "None"). -/
def ssUpper (r : VCFRec) : String :=
  match r.ss with
  | some s => toUpperStr s
  | none => "NONE"

/-- `Variant.somatic_in_format` (source lines 93-102): some sample's SS
genotype field (when present) equals the code 2.  `sample_ss` lists the SS
values of exactly the samples that carry an SS field, stringified. -/
def somatic_in_format (r : VCFRec) : Bool :=
  r.sample_ss.any (fun s => s == "2")

/-- `Variant.recA_somatic` (source lines 114-127), with the source's early
returns: the SS info check first; then the SOMATIC flag, negated by an
explicit "LOH" status; the per-sample check is only reached when the SOMATIC
flag is unset. -/
def Variant.recA_somatic (v : Variant) : Bool :=
  if ssUpper v.recA == "SOMATIC" || ssUpper v.recA == "2" then true
  else if v.recA.somatic then
    (if ssUpper v.recA == "LOH" then false else true)
  else if somatic_in_format v.recA then true
  else false

/-- `Variant.recB_somatic` (source lines 129-143): false when unmatched;
otherwise the SS info check, then the SOMATIC flag (with no LOH exception),
then the per-sample check. -/
def Variant.recB_somatic (v : Variant) : Bool :=
  match v.recB with
  | none => false
  | some rb =>
    if ssUpper rb == "SOMATIC" || ssUpper rb == "2" then true
    else if rb.somatic then true
    else if somatic_in_format rb then true
    else false

/-- `Comparison.build_comparator(...)` applied to one variant-type bucket
(source lines 32-50): counts pairs by folding `x + bool`.  The source builds
two different counting closures — when the `truth` parameter is set the
`is_true` predicate is compared, when it is unset that comparison is absent
from the closure. -/
def build_comparator (pairs : List Variant) (matched passA passB somA somB truth : Bool) :
    Nat :=
  if truth then
    pairs.foldl
      (fun x y =>
        x + (if (y.matched == matched && y.recA_pass == passA && y.recB_pass == passB &&
                 y.recA_somatic == somA && y.recB_somatic == somB &&
                 y.is_true == truth) then 1 else 0)) 0
  else
    pairs.foldl
      (fun x y =>
        x + (if (y.matched == matched && y.recA_pass == passA && y.recB_pass == passB &&
                 y.recA_somatic == somA && y.recB_somatic == somB) then 1 else 0)) 0

/-- Definition following the words of claim C4: the number of pairs whose
six predicate values exactly equal the category's boolean vector; written
only to be compared with the source's `build_comparator`. -/
def specExactCount (pairs : List Variant) (m pA pB sA sB t : Bool) : Nat :=
  pairs.countP
    (fun y => y.matched == m && y.recA_pass == pA && y.recB_pass == pB &&
      y.recA_somatic == sA && y.recB_somatic == sB && y.is_true == t)

lemma foldl_add_ite (p : Variant → Bool) (l : List Variant) (acc : Nat) :
    l.foldl (fun x y => x + (if p y then 1 else 0)) acc = acc + l.countP p := by
  induction l generalizing acc with
  | nil => simp
  | cons y ys ih =>
    rw [List.foldl_cons, ih, List.countP_cons]
    by_cases h : p y <;> (simp [h]; try omega)

lemma countP_split (p q : Variant → Bool) (l : List Variant) :
    l.countP p = l.countP (fun y => p y && q y) + l.countP (fun y => p y && !q y) := by
  induction l with
  | nil => simp
  | cons y ys ih =>
    rw [List.countP_cons, List.countP_cons, List.countP_cons]
    by_cases hp : p y <;> by_cases hq : q y <;> (simp [hp, hq]; try omega)

/-- Pair used to refute claim C4: matched, both sides pass, both germline,
and with a bound truth record. -/
def cexC4pair : Variant :=
  ⟨⟨"chr1", 100, "a", "A", ["G"], 50, [], true, false, false,
     none, none, none, none, false, none, []⟩,
   some ⟨"chr1", 100, "b", "A", ["G"], 50, [], true, false, false,
     none, none, none, none, false, none, []⟩,
   some ⟨"chr1", 100, "t", "A", ["G"], 50, [], true, false, false,
     none, none, none, none, false, none, []⟩,
   []⟩

/-- C4 counterexample: the count the source computes for the "overall"
matched category `(matched, passA, passB, somA, somB, truth) =
(T,T,T,F,F,F)` on a bucket holding one truth-bound pair is 1, although the
pair's predicate vector (`is_true = true`) does not exactly equal that
category's boolean vector — the exact-vector count is 0.  A truth-bound pair
is therefore counted in the corresponding "overall" category as well. -/
theorem category_count_counterexample :
    build_comparator [cexC4pair] true true true false false false = 1 ∧
    specExactCount [cexC4pair] true true true false false false = 0 := by
  refine ⟨by decide, by decide⟩

/-- C4 (amended): for every category of `get_sumheader`'s taxonomy (matched
categories are counted with `matched = true`, the `A_`/`B_` unmatched ones
with `matched = false` and `passB = somB = false`, exactly as `summary`
invokes `build_comparator`), the count computed for a **truth** category is
the number of pairs whose predicates exactly equal the category's boolean
vector (truth included), while the count computed for an **overall**
category is the number of pairs whose five non-truth predicates equal the
category's vector *regardless* of truth status — i.e. the sum of the exact
counts over both truth values.  In particular a truth-bound pair is counted
in both its truth category and the corresponding overall category. -/
theorem category_count_characterization (pairs : List Variant)
    (m pA pB sA sB t : Bool) :
    build_comparator pairs m pA pB sA sB t =
      (if t then specExactCount pairs m pA pB sA sB true
       else specExactCount pairs m pA pB sA sB true +
            specExactCount pairs m pA pB sA sB false) := by
  unfold build_comparator specExactCount
  rcases t with _ | _
  · rw [if_neg Bool.false_ne_true, if_neg Bool.false_ne_true, foldl_add_ite,
      Nat.zero_add,
      countP_split
        (fun y => y.matched == m && y.recA_pass == pA && y.recB_pass == pB &&
          y.recA_somatic == sA && y.recB_somatic == sB)
        (fun y => y.is_true == true)]
    have he : (fun (y : Variant) =>
        (y.matched == m && y.recA_pass == pA && y.recB_pass == pB &&
          y.recA_somatic == sA && y.recB_somatic == sB) && !(y.is_true == true)) =
        (fun (y : Variant) =>
          y.matched == m && y.recA_pass == pA && y.recB_pass == pB &&
          y.recA_somatic == sA && y.recB_somatic == sB && (y.is_true == false)) := by
      funext y
      rcases h : y.is_true <;> simp [h]
    rw [he]
  · rw [if_pos rfl, if_pos rfl, foldl_add_ite, Nat.zero_add]

/-- Record with the SOMATIC info flag set and SS status "LOH". -/
def cexC6rec : VCFRec :=
  ⟨"chr1", 100, "b6", "A", ["G"], 50, [], true, false, false,
    none, none, none, none, true, some "LOH", []⟩

/-- Record with the SOMATIC info flag set, SS status "LOH", and a sample
whose SS genotype field is 2. -/
def cexC6recA : VCFRec :=
  ⟨"chr1", 100, "a6", "A", ["G"], 50, [], true, false, false,
    none, none, none, none, true, some "LOH", ["2"]⟩

/-- Definition following the words of claim C6: somatic iff (a) the SS info
field is "SOMATIC" or the code 2, or (b) the SOMATIC flag is set and the SS
status is not explicitly "LOH", or (c) some sample's SS genotype field is 2;
the claim asserts this single rule for both sides.  Written only to be
compared with the source's `recA_somatic`/`recB_somatic`. -/
def somatic_claimC6 (r : VCFRec) : Bool :=
  (ssUpper r == "SOMATIC" || ssUpper r == "2") ||
  (r.somatic && !(ssUpper r == "LOH")) ||
  somatic_in_format r

/-- C6 counterexample: for a matched pair whose B record has the SOMATIC
flag and SS = "LOH", the source's `recB_somatic` returns true although the
claim's three-clause rule (with the LOH exception) yields false — the LOH
exception does not govern `somaticB`.  Moreover, for an A record with the
SOMATIC flag, SS = "LOH" and a sample SS of 2, the source's `recA_somatic`
returns false although clause (c) of the claim yields true — clause (c) is
not consulted once the SOMATIC flag is set. -/
theorem somatic_counterexample :
    Variant.recB_somatic ⟨cexC6recA, some cexC6rec, none, []⟩ = true ∧
    somatic_claimC6 cexC6rec = false ∧
    Variant.recA_somatic ⟨cexC6recA, none, none, []⟩ = false ∧
    somatic_claimC6 cexC6recA = true := by
  refine ⟨by decide, by decide, by decide, by decide⟩

/-- C6 (amended): `somaticA` is true iff the record's SS info field is
"SOMATIC"/2, or the SOMATIC flag is set with an SS status other than "LOH",
or the SOMATIC flag is unset and some sample's SS genotype field is 2 (a set
SOMATIC flag with SS "LOH" yields false without consulting the samples).
`somaticB` is false for an unmatched pair, and otherwise true iff the B
record's SS info field is "SOMATIC"/2, or its SOMATIC flag is set (with no
LOH exception), or some sample's SS genotype field is 2. -/
theorem somatic_characterization (v : Variant) :
    (v.recA_somatic =
      ((ssUpper v.recA == "SOMATIC" || ssUpper v.recA == "2") ||
       (v.recA.somatic && !(ssUpper v.recA == "LOH")) ||
       (!v.recA.somatic && somatic_in_format v.recA))) ∧
    (v.recB_somatic =
      (match v.recB with
       | none => false
       | some rb =>
         (ssUpper rb == "SOMATIC" || ssUpper rb == "2") || rb.somatic ||
           somatic_in_format rb)) := by
  constructor
  · unfold Variant.recA_somatic
    rcases h1 : (ssUpper v.recA == "SOMATIC" || ssUpper v.recA == "2") <;>
      rcases h2 : v.recA.somatic <;>
      rcases h3 : (ssUpper v.recA == "LOH") <;>
      rcases h4 : somatic_in_format v.recA <;>
      simp [h1, h2, h3, h4]
  · unfold Variant.recB_somatic
    rcases v.recB with _ | rb
    · rfl
    · rcases h1 : (ssUpper rb == "SOMATIC" || ssUpper rb == "2") <;>
        rcases h2 : rb.somatic <;>
        rcases h3 : somatic_in_format rb <;>
        simp [h1, h2, h3]

/-- `str(rec.ALT[0])`: the first alternate-allele string.  An ALT column of
a VCF record is never empty; the empty case (an `IndexError` in the source)
is given the empty string. -/
def altHead (r : VCFRec) : String := r.alt.headD ""

/-- `orientSV(alt)` (source lines 513-535): breakend orientation from the
bracket notation of the alternate allele, via the anchored regexes
`^[A-Z]\[`, `^[A-Z]\]`, `^\]`, `^\[`; unrecognised notation returns the
string itself. -/
def orientSV (alt : String) : String :=
  match alt.data with
  | c1 :: c2 :: _ =>
    if c1.isUpper && c2 == '[' then "right_of_p_after_t"
    else if c1.isUpper && c2 == ']' then "left_of_p_after_t"
    else if c1 == ']' then "left_of_p_before_t"
    else if c1 == '[' then "right_of_p_before_t"
    else alt
  | [c1] =>
    if c1 == ']' then "left_of_p_before_t"
    else if c1 == '[' then "right_of_p_before_t"
    else alt
  | [] => alt

/-- `vcfIntervalMatch(recA, recB)` (source lines 399-408): true iff the
**sum of the two coordinates** returned by `get_overlap_coords` on the two
confidence intervals is positive (the source compares `sum(...) > 0.0`, not
the overlap length).  The source's assert on equal SVTYPEs holds at its only
call site. -/
def vcfIntervalMatch (a b : VCFRec) : Bool :=
  let iv_A := get_conf_interval a 0
  let iv_B := get_conf_interval b 0
  let oc := get_overlap_coords iv_A iv_B
  oc.1 + oc.2 > 0

/-- `vcfVariantMatch(recA, recB)` (source lines 378-397).  Each of the
source's three `if`-blocks returns `True` when its full condition holds and
otherwise falls through, which is equivalent to this `if`/`else if` chain.
The chained Python comparison `INFO.get('SVTYPE') == INFO.get('SVTYPE') ==
'BND'` is the conjunction of the two adjacent equalities. -/
def vcfVariantMatch (a b : VCFRec) : Bool :=
  if a.is_snp && b.is_snp &&
      (a.pos == b.pos && a.ref == b.ref && a.alt == b.alt) then true
  else if a.is_indel && b.is_indel && (a.ref == b.ref && a.alt == b.alt) then true
  else if (a.is_sv && b.is_sv && (a.svtype == b.svtype) && (b.svtype == some "BND")) &&
      (orientSV (altHead a) == orientSV (altHead b) && vcfIntervalMatch a b) then true
  else false

/-- Breakend record used to refute claim C2, A side: `POS = 1`,
`CIPOS = [-20, 3]` (absolute flanks 20 and 3), so its confidence interval is
`(-19, 5)`. -/
def cexC2a : VCFRec :=
  ⟨"chr2", 1, "bndA", "A", ["A[chr9:300["], 50, [], false, false, true,
    some "BND", none, some [-20, 3], none, false, none, []⟩

/-- Breakend record used to refute claim C2, B side: same shape as the A
side, so the two confidence intervals coincide. -/
def cexC2b : VCFRec :=
  ⟨"chr2", 1, "bndB", "T", ["T[chr9:305["], 50, [], false, false, true,
    some "BND", none, some [-20, 3], none, false, none, []⟩

/-- C2 counterexample: two BND records with identical breakend orientation
(`right_of_p_after_t`) whose confidence intervals are both `(-19, 5)`, an
overlap of positive length 24 — the claim says `vcfVariantMatch` must be
true — yet the source returns false, because it tests the **sum** of the
overlap coordinates (`-19 + 5 ≤ 0`), not the overlap length. -/
theorem bnd_match_counterexample :
    vcfVariantMatch cexC2a cexC2b = false ∧
    orientSV (altHead cexC2a) = orientSV (altHead cexC2b) ∧
    get_conf_interval cexC2a 0 = (-19, 5) ∧
    get_conf_interval cexC2b 0 = (-19, 5) ∧
    min (get_conf_interval cexC2a 0).2 (get_conf_interval cexC2b 0).2 -
      max (get_conf_interval cexC2a 0).1 (get_conf_interval cexC2b 0).1 = 24 := by
  refine ⟨by decide, by decide, by decide, by decide, by decide⟩

/-- C2 (amended): for records that are both breakend structural variants
with `SVTYPE = "BND"` (and neither SNVs nor indels), `vcfVariantMatch` is
true iff the breakend orientations derived from the first alternate-allele
strings are equal AND the overlap of the two confidence intervals has
positive length AND the sum of the overlap's two coordinates is positive
(the source compares `sum(get_overlap_coords(...)) > 0`; for overlaps with
a nonnegative start this coincides with positive overlap length). -/
lemma vcfIntervalMatch_iff (a b : VCFRec) :
    vcfIntervalMatch a b = true ↔
      (0 < min (get_conf_interval a 0).2 (get_conf_interval b 0).2 -
          max (get_conf_interval a 0).1 (get_conf_interval b 0).1 ∧
       0 < max (get_conf_interval a 0).1 (get_conf_interval b 0).1 +
          min (get_conf_interval a 0).2 (get_conf_interval b 0).2) := by
  unfold vcfIntervalMatch get_overlap_coords
  dsimp only
  set ivA := get_conf_interval a 0
  set ivB := get_conf_interval b 0
  by_cases hov : min ivA.2 ivB.2 - max ivA.1 ivB.1 > 0
  · rw [if_pos hov]
    simp only [gt_iff_lt, decide_eq_true_eq]
    exact ⟨fun h => ⟨hov, h⟩, fun h => h.2⟩
  · rw [if_neg hov]
    simp only [gt_iff_lt, decide_eq_true_eq]
    constructor
    · intro h; exfalso; omega
    · intro h; exfalso; omega

theorem bnd_match_characterization (a b : VCFRec)
    (ha1 : a.is_snp = false) (_hb1 : b.is_snp = false)
    (ha2 : a.is_indel = false) (_hb2 : b.is_indel = false)
    (ha3 : a.is_sv = true) (hb3 : b.is_sv = true)
    (ha4 : a.svtype = some "BND") (hb4 : b.svtype = some "BND") :
    (vcfVariantMatch a b = true ↔
      (orientSV (altHead a) = orientSV (altHead b) ∧
       0 < min (get_conf_interval a 0).2 (get_conf_interval b 0).2 -
           max (get_conf_interval a 0).1 (get_conf_interval b 0).1 ∧
       0 < max (get_conf_interval a 0).1 (get_conf_interval b 0).1 +
           min (get_conf_interval a 0).2 (get_conf_interval b 0).2)) := by
  have hiv := vcfIntervalMatch_iff a b
  unfold vcfVariantMatch
  simp only [ha1, ha2, ha3, hb3, ha4, hb4, Bool.false_and, Bool.true_and,
    Bool.false_eq_true, if_false, beq_self_eq_true, Bool.and_true]
  rcases h1 : (orientSV (altHead a) == orientSV (altHead b)) with _ | _
  · refine iff_of_false ?_ ?_
    · simp [h1]
    · rintro ⟨he, _⟩
      simp [he] at h1
  · rcases h2 : vcfIntervalMatch a b with _ | _
    · refine iff_of_false ?_ ?_
      · simp [h1, h2]
      · rintro ⟨_, hl, hs⟩
        have hm := hiv.mpr ⟨hl, hs⟩
        rw [h2] at hm
        exact Bool.false_ne_true hm
    · have hor : orientSV (altHead a) = orientSV (altHead b) := eq_of_beq h1
      have hlen := hiv.mp h2
      refine iff_of_true ?_ ⟨hor, hlen.1, hlen.2⟩
      simp [h1, h2]

/-- Witness for C2's amended characterization at a concrete pair of matching
BND records whose confidence intervals are `(90, 111)` and `(95, 116)`. -/
theorem bnd_match_characterization_witness :
    vcfVariantMatch
      (⟨"chr2", 100, "w2a", "A", ["A[chr9:300["], 50, [], false, false, true,
         some "BND", none, some [10, 10], none, false, none, []⟩ : VCFRec)
      (⟨"chr2", 105, "w2b", "T", ["T[chr9:305["], 50, [], false, false, true,
         some "BND", none, some [10, 10], none, false, none, []⟩ : VCFRec) = true := by
  exact (bnd_match_characterization _ _ rfl rfl rfl rfl rfl rfl rfl rfl).mpr
    ⟨by decide, by decide, by decide⟩

/-- `sv_uid(rec)` (source lines 508-511): the identity key of a record,
built from CHROM, POS, ID, REF, ALT, QUAL, FILTER and INFO.  The source
joins the stringified fields with commas; the model keeps the fields
themselves (the INFO mapping is the record's info-derived fields), which
identifies records at least as precisely. -/
structure SvUid where
  chrom : String
  pos : Int
  id : String
  ref : String
  alt : List String
  qual : Int
  filter : List String
  svtype : Option String
  info_end : Option Int
  cipos : Option (List Int)
  ciend : Option (List Int)
  somatic : Bool
  ss : Option String
deriving DecidableEq, Repr

def sv_uid (r : VCFRec) : SvUid :=
  ⟨r.chrom, r.pos, r.id, r.ref, r.alt, r.qual, r.filter,
   r.svtype, r.info_end, r.cipos, r.ciend, r.somatic, r.ss⟩

/-- Membership of a key in the `used_B_interval` dictionary (source line
485 tests `sv_uid(recB) in used_B_interval`).  The dictionary is modelled
as an association list; the source's overwriting assignment corresponds to
consing, which preserves membership. -/
def keyIn (u : SvUid) (used : List (SvUid × VCFRec)) : Bool :=
  used.any (fun e => e.1 == u)

/-- A fresh pair for a source record (source lines 451-467 construct
`SNV(recA, None)` etc.; all subclasses share the `Variant` state). -/
def mkVariant (r : VCFRec) : Variant := ⟨r, none, none, []⟩

/-- Variant-type classification of a source record (source lines 451-467).
The source's final branch compares `recA.ALT` (a list) with the string
`'CNV'`, which is always false in Python, so no record is ever classified
CNV; unsupported records get no type and are skipped. -/
def classify (r : VCFRec) : Option String :=
  if r.is_snp then some "SNV"
  else if r.is_indel then some "INDEL"
  else if r.is_sv && r.svtype == some "BND" then some "SV"
  else none

/-- One step of the candidate loop (source lines 477-490), acting on the
state `(variant, used_B_interval, match)`.  A matching candidate is
appended to `altmatch` when a match is already bound, or — for the interval
variant types — when its identity key is already in `used_B_interval`;
otherwise `set_left` binds it and records its key.  The source's
`assert variant.recB is None` (line 482) always holds on the source's
states, where `match` is true exactly when `recB` is bound. -/
def candStep (recA : VCFRec) (vtype : String)
    (st : Variant × List (SvUid × VCFRec) × Bool) (recB : VCFRec) :
    Variant × List (SvUid × VCFRec) × Bool :=
  let (variant, used, m) := st
  if vcfVariantMatch recA recB then
    if m then ({ variant with altmatch := variant.altmatch ++ [recB] }, used, m)
    else if (vtype == "INDEL" || vtype == "SV" || vtype == "CNV") &&
        keyIn (sv_uid recB) used then
      ({ variant with altmatch := variant.altmatch ++ [recB] }, used, m)
    else
      match variant.set_left recB with
      | (v9, true) => (v9, (sv_uid recB, recA) :: used, true)
      | (v9, false) => (v9, used, m)
  else st

/-- The candidate loop over the fetched target records (source lines
477-490). -/
def processCands (recA : VCFRec) (vtype : String) (cands : List VCFRec)
    (st : Variant × List (SvUid × VCFRec) × Bool) :
    Variant × List (SvUid × VCFRec) × Bool :=
  cands.foldl (candStep recA vtype) st

/-- The truth loop (source lines 497-501): every matching fetched truth
record is assigned to `recT` in fetch order — there is no early exit, so a
later match overwrites an earlier one. -/
def bindTruth (recA : VCFRec) (variant : Variant) (cands : List VCFRec) : Variant :=
  cands.foldl
    (fun v recT => if vcfVariantMatch recA recT then { v with recT := some recT } else v)
    variant

/-- `Comparison` (source lines 22-30): the per-type buckets.  Only the
`'SNV'` and `'INDEL'` keys exist — the `'SV'` and `'CNV'` entries are
commented out in the source. -/
structure Comparison where
  snv : List Variant
  indel : List Variant
deriving DecidableEq, Repr

/-- `cmp.vartype[vtype].append(variant)` (source line 504).  For
`vtype = 'SV'` (or `'CNV'`) the source raises a `KeyError`, modelled as
`none`, which aborts the run. -/
def Comparison.appendVar (c : Comparison) (vtype : String) (v : Variant) :
    Option Comparison :=
  if vtype == "SNV" then some { c with snv := c.snv ++ [v] }
  else if vtype == "INDEL" then some { c with indel := c.indel ++ [v] }
  else none

/-- One iteration of the source-record loop of `compareVCFs` (source lines
426-504).  `fetchB` and `fetchT` give the records the windowed fetches
yield for a source record (the window `[pos-w, end+w)` is a function of the
record, so the fetch is abstracted as a function of the record; a fetch
that raises is one that yields no records, matching the source's
`except` handlers).  A mask is a contig list together with the "position is
masked" test (source lines 429-435). -/
def recStep (fetchB : VCFRec → List VCFRec) (truth : Option (VCFRec → List VCFRec))
    (mask : Option (List String × (String → Int → Bool)))
    (st : Option (Comparison × List (SvUid × VCFRec))) (recA : VCFRec) :
    Option (Comparison × List (SvUid × VCFRec)) :=
  match st with
  | none => none
  | some (cmp, used) =>
    let skip : Bool :=
      match mask with
      | none => false
      | some (ctgs, hit) => !(ctgs.contains recA.chrom) || hit recA.chrom recA.pos
    if skip then some (cmp, used)
    else
      match classify recA with
      | none => some (cmp, used)
      | some vtype =>
        let r1 := processCands recA vtype (fetchB recA) (mkVariant recA, used, false)
        let v2 :=
          match truth with
          | none => r1.1
          | some ft => bindTruth recA r1.1 (ft recA)
        match cmp.appendVar vtype v2 with
        | none => none
        | some cmp9 => some (cmp9, r1.2.1)

/-- `compareVCFs(h_vcfA, h_interval_vcfB, ...)` (source lines 411-506): the
unidirectional comparison, folding the source records in fetch order with
the per-run `used_B_interval` dictionary threaded through.  `none` models
the `KeyError` raised when a BND structural variant reaches the append
(the `Comparison` has no `'SV'` bucket). -/
def compareVCFs (src : List VCFRec) (fetchB : VCFRec → List VCFRec)
    (mask : Option (List String × (String → Int → Bool)))
    (truth : Option (VCFRec → List VCFRec)) : Option Comparison :=
  (src.foldl (recStep fetchB truth mask) (some (⟨[], []⟩, []))).map Prod.fst

/-- `summary(compAB_list, compBA_list)` warning behaviour (source lines
590-628): `n_shared_AB` and `n_shared_BA` are initialised to zero at lines
593-594 and never incremented anywhere in the function, and the final loop
warns for each variant type when they differ.  The returned list holds the
warnings emitted. -/
def summaryWarnings (_compAB_list _compBA_list : List Comparison) : List String :=
  let n_shared_AB : Nat := 0
  let n_shared_BA : Nat := 0
  ["SNV", "INDEL"].filterMap
    (fun vtype =>
      if n_shared_AB ≠ n_shared_BA then
        some ("warning: overlap was not symmetric for " ++ vtype)
      else none)

/-- Modelled from the spec: the genuine shared-match total of one
direction — the number of matched pairs summed over that direction's
per-segment comparisons.  The source never computes this quantity; it is
needed to state what the asymmetry warning was meant to compare. -/
def specSharedTotal (comps : List Comparison) : Nat :=
  (comps.map (fun c => (c.snv ++ c.indel).countP (fun v => v.matched))).sum

/-- Source SNV record used to refute claim C5. -/
def cexC5a : VCFRec :=
  ⟨"chr1", 100, "a5", "A", ["G"], 50, [], true, false, false,
    none, none, none, none, false, none, []⟩

/-- First matching truth record (differs from the second in ID only). -/
def cexC5t1 : VCFRec :=
  ⟨"chr1", 100, "t1", "A", ["G"], 50, [], true, false, false,
    none, none, none, none, false, none, []⟩

/-- Second matching truth record. -/
def cexC5t2 : VCFRec :=
  ⟨"chr1", 100, "t2", "A", ["G"], 50, [], true, false, false,
    none, none, none, none, false, none, []⟩

/-- C5 counterexample: with two matching truth records fetched in order
`[t1, t2]`, the truth loop binds `recT = t2` — the **last** match — although
`t1` is the first matching truth record and differs from `t2`. -/
theorem truth_binding_counterexample :
    (bindTruth cexC5a (mkVariant cexC5a) [cexC5t1, cexC5t2]).recT = some cexC5t2 ∧
    vcfVariantMatch cexC5a cexC5t1 = true ∧
    cexC5t1 ≠ cexC5t2 := by
  refine ⟨by decide, by decide, by decide⟩

lemma foldl_lastmatch (p : VCFRec → Bool) (l : List VCFRec) (acc : Option VCFRec) :
    l.foldl (fun a r => if p r then some r else a) acc =
      (match (l.filter p).getLast? with
       | some t => some t
       | none => acc) := by
  induction l generalizing acc with
  | nil => rfl
  | cons c cs ih =>
    rw [List.foldl_cons, List.filter_cons]
    by_cases hc : p c
    · rw [if_pos hc, if_pos hc, ih]
      rcases hcs : cs.filter p with _ | ⟨d, ds⟩
      · rfl
      · rw [List.getLast?_cons_cons]
        rcases hlast : (d :: ds).getLast? with _ | t
        · simp at hlast
        · rfl
    · rw [if_neg hc, if_neg (by simpa using hc), ih]

/-- C5 (amended): the truth loop evaluates the fetched truth records
against the matcher in fetch order with no early exit, so the **last**
matching truth record (if any) is bound as `recT`; pairs with no matching
truth record keep `recT` as it was (unset for a freshly built pair). -/
theorem truth_binding_last_match (recA : VCFRec) (v : Variant) (cands : List VCFRec) :
    (bindTruth recA v cands).recT =
      (match (cands.filter (fun r => vcfVariantMatch recA r)).getLast? with
       | some t => some t
       | none => v.recT) := by
  have hfold : ∀ (w : Variant),
      (bindTruth recA w cands).recT =
        cands.foldl (fun a r => if vcfVariantMatch recA r then some r else a) w.recT := by
    intro w
    induction cands generalizing w with
    | nil => rfl
    | cons c cs ih =>
      unfold bindTruth at ih ⊢
      rw [List.foldl_cons, List.foldl_cons]
      by_cases hc : vcfVariantMatch recA c
      · rw [if_pos hc, if_pos hc, ih]
      · rw [if_neg hc, if_neg hc, ih]
  rw [hfold v, foldl_lastmatch]

/-- A-to-B comparison list (one segment) holding one matched SNV pair. -/
def cexC9ab : List Comparison :=
  [⟨[⟨cexC5a, some cexC5t1, none, []⟩], []⟩]

/-- B-to-A comparison list (one segment) holding no pairs at all. -/
def cexC9ba : List Comparison := [⟨[], []⟩]

/-- C9: the asymmetry warning of `summary` is dead code.  On directional
inputs whose genuine shared-match totals differ (1 matched pair A-to-B,
0 B-to-A), no warning is emitted, because the two counters the source
compares are initialised to zero and never incremented (the source marks
the comparison `# FIXME`). -/
theorem summary_warning_dead_code :
    specSharedTotal cexC9ab = 1 ∧
    specSharedTotal cexC9ba = 0 ∧
    summaryWarnings cexC9ab cexC9ba = [] := by
  refine ⟨by decide, by decide, by decide⟩

/-- First source SNV used to refute claim C1. -/
def cexC1a1 : VCFRec :=
  ⟨"chr1", 100, "s1", "A", ["G"], 50, [], true, false, false,
    none, none, none, none, false, none, []⟩

/-- Second source SNV (same position and alleles, different ID). -/
def cexC1a2 : VCFRec :=
  ⟨"chr1", 100, "s2", "A", ["G"], 50, [], true, false, false,
    none, none, none, none, false, none, []⟩

/-- Target SNV matched by both source records. -/
def cexC1b : VCFRec :=
  ⟨"chr1", 100, "b1", "A", ["G"], 50, [], true, false, false,
    none, none, none, none, false, none, []⟩

/-- C1 counterexample: a run over two source SNVs that both match the same
target record binds that target as the primary `recB` of **both** pairs —
the identity-map check of source line 485 is only performed for
`vtype in ('INDEL','SV','CNV')`, so for SNV source records a candidate
whose key is already in the map is rebound rather than sent to `altmatch`,
and one target record becomes the primary `recB` of two pairs in one run. -/
theorem compare_dedup_counterexample :
    compareVCFs [cexC1a1, cexC1a2] (fun _ => [cexC1b]) none none =
      some ⟨[⟨cexC1a1, some cexC1b, none, []⟩, ⟨cexC1a2, some cexC1b, none, []⟩], []⟩ ∧
    cexC1a1 ≠ cexC1a2 := by
  refine ⟨by decide, by decide⟩

lemma candStep_cases (recA : VCFRec) (vt : String) (v : Variant)
    (used : List (SvUid × VCFRec)) (m : Bool) (recB : VCFRec) :
    candStep recA vt (v, used, m) recB = (v, used, m) ∨
    candStep recA vt (v, used, m) recB =
      ({ v with altmatch := v.altmatch ++ [recB] }, used, m) ∨
    (m = false ∧ v.recB = none ∧
      ((vt == "INDEL" || vt == "SV" || vt == "CNV") && keyIn (sv_uid recB) used) = false ∧
      candStep recA vt (v, used, m) recB =
        ({ v with recB := some recB }, (sv_uid recB, recA) :: used, true)) := by
  unfold candStep
  by_cases h1 : vcfVariantMatch recA recB
  · rcases m with _ | _
    · by_cases h2 : ((vt == "INDEL" || vt == "SV" || vt == "CNV") &&
          keyIn (sv_uid recB) used) = true
      · right; left; simp [h1, h2]
      · rcases hv : v.recB with _ | x
        · right; right
          exact ⟨rfl, rfl, by simpa using h2, by
            simp [h1, Bool.eq_false_iff.mpr h2, Variant.set_left, hv]⟩
        · left; simp [h1, Bool.eq_false_iff.mpr h2, Variant.set_left, hv]
    · right; left; simp [h1]
  · left; simp [h1]

lemma candStep_recB_stable (recA : VCFRec) (vt : String) (v : Variant)
    (used : List (SvUid × VCFRec)) (m : Bool) (recB : VCFRec) (x : VCFRec)
    (hx : v.recB = some x) :
    (candStep recA vt (v, used, m) recB).1.recB = some x := by
  rcases candStep_cases recA vt v used m recB with h | h | ⟨_, hnone, _, h⟩
  · rw [h]; exact hx
  · rw [h]; exact hx
  · rw [hnone] at hx; cases hx

lemma keyIn_cons (u : SvUid) (e : SvUid × VCFRec) (used : List (SvUid × VCFRec))
    (h : keyIn u used = true) : keyIn u (e :: used) = true := by
  unfold keyIn at h ⊢
  rw [List.any_cons, h, Bool.or_true]

lemma candStep_used_mono (recA : VCFRec) (vt : String) (v : Variant)
    (used : List (SvUid × VCFRec)) (m : Bool) (recB : VCFRec) (u : SvUid)
    (h : keyIn u used = true) :
    keyIn u (candStep recA vt (v, used, m) recB).2.1 = true := by
  rcases candStep_cases recA vt v used m recB with hc | hc | ⟨_, _, _, hc⟩ <;>
    rw [hc] <;> first
      | exact h
      | exact keyIn_cons u _ used h

lemma processCands_cons (recA : VCFRec) (vt : String) (c : VCFRec) (cs : List VCFRec)
    (st : Variant × List (SvUid × VCFRec) × Bool) :
    processCands recA vt (c :: cs) st = processCands recA vt cs (candStep recA vt st c) :=
  rfl

lemma processCands_recB_stable (recA : VCFRec) (vt : String) (cands : List VCFRec) :
    ∀ (st : Variant × List (SvUid × VCFRec) × Bool) (x : VCFRec),
      st.1.recB = some x → (processCands recA vt cands st).1.recB = some x := by
  induction cands with
  | nil => intro st x hx; exact hx
  | cons c cs ih =>
    intro st x hx
    rw [processCands_cons]
    refine ih _ x ?_
    obtain ⟨v, used, m⟩ := st
    exact candStep_recB_stable recA vt v used m c x hx

lemma processCands_used_mono (recA : VCFRec) (vt : String) (cands : List VCFRec) :
    ∀ (st : Variant × List (SvUid × VCFRec) × Bool) (u : SvUid),
      keyIn u st.2.1 = true → keyIn u (processCands recA vt cands st).2.1 = true := by
  induction cands with
  | nil => intro st u h; exact h
  | cons c cs ih =>
    intro st u h
    rw [processCands_cons]
    refine ih _ u ?_
    obtain ⟨v, used, m⟩ := st
    exact candStep_used_mono recA vt v used m c u h

lemma processCands_fresh (recA : VCFRec) (vt : String)
    (hvt : (vt == "INDEL" || vt == "SV" || vt == "CNV") = true) (cands : List VCFRec) :
    ∀ (v : Variant) (used : List (SvUid × VCFRec)),
      v.recB = none →
      ∀ b, (processCands recA vt cands (v, used, false)).1.recB = some b →
        keyIn (sv_uid b) used = false ∧
        keyIn (sv_uid b) (processCands recA vt cands (v, used, false)).2.1 = true := by
  induction cands with
  | nil =>
    intro v used hv b hb
    rw [show processCands recA vt [] (v, used, false) = (v, used, false) from rfl] at hb
    rw [hv] at hb
    cases hb
  | cons c cs ih =>
    intro v used hv b hb
    rw [processCands_cons] at hb ⊢
    rcases candStep_cases recA vt v used false c with hc | hc | ⟨_, _, hcond, hc⟩
    · rw [hc] at hb ⊢
      exact ih v used hv b hb
    · rw [hc] at hb ⊢
      exact ih { v with altmatch := v.altmatch ++ [c] } used hv b hb
    · rw [hc] at hb ⊢
      have hstable := processCands_recB_stable recA vt cs
        ({ v with recB := some c }, (sv_uid c, recA) :: used, true) c rfl
      have hbc : b = c := by
        rw [hstable] at hb
        exact (Option.some_injective _ hb).symm
      subst hbc
      have hk : keyIn (sv_uid b) used = false := by
        rcases hkk : keyIn (sv_uid b) used with _ | _
        · rfl
        · rw [hvt, hkk] at hcond
          cases hcond
      refine ⟨hk, ?_⟩
      refine processCands_used_mono recA vt cs _ (sv_uid b) ?_
      unfold keyIn
      rw [List.any_cons]
      simp

/-- The per-run dedup invariant carried through the source-record fold:
every bound `recB` of an INDEL pair has its identity key in
`used_B_interval`, and no two INDEL pairs bind records with the same key. -/
def dedupInv (cmp : Comparison) (used : List (SvUid × VCFRec)) : Prop :=
  (∀ p ∈ cmp.indel, ∀ b, p.recB = some b → keyIn (sv_uid b) used = true) ∧
  cmp.indel.Pairwise
    (fun p q => ∀ b c, p.recB = some b → q.recB = some c → sv_uid b ≠ sv_uid c)

lemma bindTruth_recB (recA : VCFRec) (v : Variant) (cands : List VCFRec) :
    (bindTruth recA v cands).recB = v.recB := by
  induction cands generalizing v with
  | nil => rfl
  | cons c cs ih =>
    unfold bindTruth at ih ⊢
    rw [List.foldl_cons]
    by_cases hc : vcfVariantMatch recA c
    · rw [if_pos hc, ih]
    · rw [if_neg hc, ih]

lemma classify_eq (r : VCFRec) (vt : String) (h : classify r = some vt) :
    vt = "SNV" ∨ vt = "INDEL" ∨ vt = "SV" := by
  unfold classify at h
  by_cases h1 : r.is_snp = true
  · rw [if_pos h1] at h
    exact Or.inl (Option.some_injective _ h).symm
  · rw [if_neg h1] at h
    by_cases h2 : r.is_indel = true
    · rw [if_pos h2] at h
      exact Or.inr (Or.inl (Option.some_injective _ h).symm)
    · rw [if_neg h2] at h
      by_cases h3 : (r.is_sv && r.svtype == some "BND") = true
      · rw [if_pos h3] at h
        exact Or.inr (Or.inr (Option.some_injective _ h).symm)
      · rw [if_neg h3] at h
        cases h

lemma appendVar_snv (c : Comparison) (v : Variant) :
    c.appendVar "SNV" v = some { c with snv := c.snv ++ [v] } := rfl

lemma appendVar_indel (c : Comparison) (v : Variant) :
    c.appendVar "INDEL" v = some { c with indel := c.indel ++ [v] } := rfl

lemma appendVar_sv (c : Comparison) (v : Variant) :
    c.appendVar "SV" v = none := rfl

lemma recStep_inv (fetchB : VCFRec → List VCFRec)
    (truth : Option (VCFRec → List VCFRec))
    (mask : Option (List String × (String → Int → Bool)))
    (recA : VCFRec) (cmp : Comparison) (used : List (SvUid × VCFRec))
    (cmp9 : Comparison) (used9 : List (SvUid × VCFRec))
    (h : recStep fetchB truth mask (some (cmp, used)) recA = some (cmp9, used9))
    (hinv : dedupInv cmp used) : dedupInv cmp9 used9 := by
  unfold recStep at h
  dsimp only at h
  split at h
  · -- masked record: state unchanged
    simp only [Option.some.injEq, Prod.mk.injEq] at h
    obtain ⟨h1, h2⟩ := h
    rw [← h1, ← h2]; exact hinv
  · split at h
    · -- unsupported type: state unchanged
      simp only [Option.some.injEq, Prod.mk.injEq] at h
      obtain ⟨h1, h2⟩ := h
      rw [← h1, ← h2]; exact hinv
    · next vt hcls =>
      rcases classify_eq recA vt hcls with hv | hv | hv
      · -- SNV: the indel bucket is unchanged and the used map only grows
        subst hv
        rw [appendVar_snv] at h
        simp only [Option.some.injEq, Prod.mk.injEq] at h
        obtain ⟨h1, h2⟩ := h
        constructor
        · intro p hp b hb
          rw [← h2]
          refine processCands_used_mono recA "SNV" (fetchB recA) _ _ ?_
          refine hinv.1 p ?_ b hb
          rw [← h1] at hp
          exact hp
        · rw [← h1]
          exact hinv.2
      · -- INDEL: a fresh pair is appended; its key was unused before
        subst hv
        rw [appendVar_indel] at h
        simp only [Option.some.injEq, Prod.mk.injEq] at h
        obtain ⟨h1, h2⟩ := h
        have hv2recB : (match truth with
            | none =>
              (processCands recA "INDEL" (fetchB recA) (mkVariant recA, used, false)).1
            | some ft =>
              bindTruth recA
                (processCands recA "INDEL" (fetchB recA) (mkVariant recA, used, false)).1
                (ft recA)).recB =
            (processCands recA "INDEL" (fetchB recA) (mkVariant recA, used, false)).1.recB := by
          rcases truth with _ | ft
          · rfl
          · exact bindTruth_recB recA _ (ft recA)
        have hfresh := processCands_fresh recA "INDEL" (by decide) (fetchB recA)
          (mkVariant recA) used rfl
        constructor
        · intro p hp b hb
          rw [← h1] at hp
          rw [← h2]
          rcases List.mem_append.mp hp with hmem | hmem
          · exact processCands_used_mono recA "INDEL" (fetchB recA) _ _
              (hinv.1 p hmem b hb)
          · have hpv := List.mem_singleton.mp hmem
            rw [hpv] at hb
            rw [hv2recB] at hb
            exact (hfresh b hb).2
        · rw [← h1]
          rw [List.pairwise_append]
          refine ⟨hinv.2, List.pairwise_singleton _ _, ?_⟩
          intro p hp q hq b c hb hc
          have hqv := List.mem_singleton.mp hq
          rw [hqv] at hc
          rw [hv2recB] at hc
          have hfc := (hfresh c hc).1
          have hbk := hinv.1 p hp b hb
          intro hbc
          rw [hbc] at hbk
          rw [hbk] at hfc
          cases hfc
      · -- SV: the append raises, contradicting a successful step
        subst hv
        rw [appendVar_sv] at h
        cases h

lemma compareVCFs_fold_inv (fetchB : VCFRec → List VCFRec)
    (truth : Option (VCFRec → List VCFRec))
    (mask : Option (List String × (String → Int → Bool))) :
    ∀ (src : List VCFRec) (st : Option (Comparison × List (SvUid × VCFRec))),
      (∀ cmp used, st = some (cmp, used) → dedupInv cmp used) →
      ∀ cmp9 used9,
        src.foldl (recStep fetchB truth mask) st = some (cmp9, used9) →
        dedupInv cmp9 used9 := by
  intro src
  induction src with
  | nil => intro st hst cmp9 used9 h; exact hst cmp9 used9 h
  | cons r rs ih =>
    intro st hst cmp9 used9 h
    rw [List.foldl_cons] at h
    refine ih (recStep fetchB truth mask st r) ?_ cmp9 used9 h
    intro cmp1 used1 h1
    rcases st with _ | ⟨cmp0, used0⟩
    · rw [show recStep fetchB truth mask none r = none from rfl] at h1
      cases h1
    · exact recStep_inv fetchB truth mask r cmp0 used0 cmp1 used1 h1
        (hst cmp0 used0 rfl)

/-- C1 (amended): the identity-map dedup applies only to the interval
variant types.  (i) For a source record of type INDEL, SV or CNV, a
matching candidate whose identity key is already in the per-run map is
appended to the current pair's `altmatch` and is not bound as its `recB`
(the state is otherwise unchanged).  (ii) Consequently, in any completed
run of the directional comparator, no two INDEL pairs bind primary `recB`
records with the same identity key.  For SNV source records the check is
skipped, and one target record can become the primary `recB` of two pairs
(see the counterexample). -/
theorem compare_dedup_interval_only :
    (∀ (recA : VCFRec) (vt : String) (v : Variant)
        (used : List (SvUid × VCFRec)) (recB : VCFRec),
      (vt = "INDEL" ∨ vt = "SV" ∨ vt = "CNV") → v.recB = none →
      vcfVariantMatch recA recB = true → keyIn (sv_uid recB) used = true →
      candStep recA vt (v, used, false) recB =
        ({ v with altmatch := v.altmatch ++ [recB] }, used, false)) ∧
    (∀ (src : List VCFRec) (fetchB : VCFRec → List VCFRec)
        (mask : Option (List String × (String → Int → Bool)))
        (truth : Option (VCFRec → List VCFRec)) (cmp : Comparison),
      compareVCFs src fetchB mask truth = some cmp →
      cmp.indel.Pairwise
        (fun p q => ∀ b c, p.recB = some b → q.recB = some c →
          sv_uid b ≠ sv_uid c)) := by
  constructor
  · intro recA vt v used recB hvt _hv hm hk
    have hcond : ((vt == "INDEL" || vt == "SV" || vt == "CNV") &&
        keyIn (sv_uid recB) used) = true := by
      rcases hvt with h | h | h <;> rw [h] <;> simp [hk]
    unfold candStep
    simp [hm, hcond]
  · intro src fetchB mask truth cmp h
    unfold compareVCFs at h
    rcases hfold : src.foldl (recStep fetchB truth mask) (some (⟨[], []⟩, []))
      with _ | ⟨cmp0, used0⟩
    · rw [hfold] at h
      cases h
    · rw [hfold] at h
      have hcmp : cmp0 = cmp := Option.some_injective _ h
      have hinv := compareVCFs_fold_inv fetchB truth mask src
        (some (⟨[], []⟩, []))
        (by
          intro c u hcu
          obtain ⟨h1, h2⟩ := Prod.mk.injEq .. ▸ (Option.some_injective _ hcu)
          rw [← h1, ← h2]
          exact ⟨fun p hp => absurd hp (List.not_mem_nil p), List.Pairwise.nil⟩)
        cmp0 used0 hfold
      rw [← hcmp]
      exact hinv.2

/-- Witness for C1's amended statement: part (i) at an INDEL source record
whose matching candidate's key is already in the map, and part (ii) at a
completed one-record INDEL run. -/
theorem compare_dedup_interval_only_witness :
    candStep
      (⟨"chr1", 200, "wa", "A", ["AT"], 50, [], false, true, false,
         none, none, none, none, false, none, []⟩ : VCFRec) "INDEL"
      (mkVariant ⟨"chr1", 200, "wa", "A", ["AT"], 50, [], false, true, false,
         none, none, none, none, false, none, []⟩,
       [(sv_uid ⟨"chr1", 201, "wb", "A", ["AT"], 50, [], false, true, false,
           none, none, none, none, false, none, []⟩,
         ⟨"chr1", 200, "wa", "A", ["AT"], 50, [], false, true, false,
           none, none, none, none, false, none, []⟩)], false)
      ⟨"chr1", 201, "wb", "A", ["AT"], 50, [], false, true, false,
         none, none, none, none, false, none, []⟩ =
      ({ mkVariant ⟨"chr1", 200, "wa", "A", ["AT"], 50, [], false, true, false,
           none, none, none, none, false, none, []⟩ with
         altmatch := [⟨"chr1", 201, "wb", "A", ["AT"], 50, [], false, true, false,
           none, none, none, none, false, none, []⟩] },
       [(sv_uid ⟨"chr1", 201, "wb", "A", ["AT"], 50, [], false, true, false,
           none, none, none, none, false, none, []⟩,
         ⟨"chr1", 200, "wa", "A", ["AT"], 50, [], false, true, false,
           none, none, none, none, false, none, []⟩)], false) ∧
    (⟨[], [⟨⟨"chr1", 200, "wa", "A", ["AT"], 50, [], false, true, false,
        none, none, none, none, false, none, []⟩,
      some ⟨"chr1", 201, "wb", "A", ["AT"], 50, [], false, true, false,
        none, none, none, none, false, none, []⟩, none, []⟩]⟩ : Comparison).indel.Pairwise
      (fun p q => ∀ b c, p.recB = some b → q.recB = some c →
        sv_uid b ≠ sv_uid c) := by
  constructor
  · exact compare_dedup_interval_only.1 _ "INDEL" _ _ _ (Or.inl rfl) rfl
      (by decide) (by decide)
  · exact compare_dedup_interval_only.2
      [⟨"chr1", 200, "wa", "A", ["AT"], 50, [], false, true, false,
         none, none, none, none, false, none, []⟩]
      (fun _ => [⟨"chr1", 201, "wb", "A", ["AT"], 50, [], false, true, false,
         none, none, none, none, false, none, []⟩])
      none none _ (by decide)

/-- `Segment` (source lines 249-286): a contiguous genomic interval.  The
source's `end` attribute is called `stop` here (`end` is reserved); the
`length` attribute is stored separately exactly as in the source. -/
structure Segment where
  chrom : String
  start : Int
  stop : Int
  length : Int
deriving DecidableEq, Repr

/-- `Segment(line)` construction from a chromosome-length table entry
(source lines 257-264): `start = 0`, `end = length`.  The table itself (one
`name length` line per chromosome, source lines 735-739) is modelled as the
list of `(name, length)` pairs it parses to. -/
def Segment.ofChrom (p : String × Int) : Segment := ⟨p.1, 0, p.2, p.2⟩

/-- `Segment.left` (source lines 272-278): the left half, ending at
`start + int(length/2)`.  Integer division models Python's floor division
(they agree on the nonnegative lengths arising in `split_genome`). -/
def Segment.left (s : Segment) : Segment :=
  ⟨s.chrom, s.start, s.start + s.length / 2, s.start + s.length / 2 - s.start⟩

/-- `Segment.right` (source lines 280-286): the right half, starting at
`end - int(length/2)`. -/
def Segment.right (s : Segment) : Segment :=
  ⟨s.chrom, s.stop - s.length / 2, s.stop, s.stop - (s.stop - s.length / 2)⟩

/-- Stable insertion of a segment into a length-sorted list (ascending,
ties keep their order). -/
def insertSeg (s : Segment) : List Segment → List Segment
  | [] => [s]
  | t :: ts => if s.length ≤ t.length then s :: t :: ts else t :: insertSeg s ts

/-- `segs.sort()` (source lines 741 and 748): Python's stable sort,
ascending by length (`Segment` defines only `__gt__`, which Python 2's sort
uses through the reflected comparison).  Modelled as a stable insertion
sort, which computes the same list as any stable ascending sort. -/
def sortSegs (l : List Segment) : List Segment := l.foldr insertSeg []

/-- The bisection loop of `split_genome` (source lines 744-748), with the
number of remaining iterations made explicit: the loop runs while
`n > len(segs)` and each iteration replaces the longest segment (the last,
after the ascending sort) by its two halves, growing the list by exactly
one, so `n - len(segs)` counts the iterations exactly.  Popping from an
empty list raises `IndexError` in the source, modelled as `none`. -/
def bisect_go (n : Nat) : Nat → List Segment → Option (List Segment)
  | 0, segs => some segs
  | fuel + 1, segs =>
    match segs.getLast? with
    | none => none
    | some big => bisect_go n fuel (sortSegs (segs.dropLast ++ [big.left, big.right]))

def bisect_loop (n : Nat) (segs : List Segment) : Option (List Segment) :=
  bisect_go n (n - segs.length) segs

/-- `jobs[j].append(seg)` (source line 760): the bucket at index `i`
receives `x` at its end. -/
def appendAt (jobs : List (List Segment)) (i : Nat) (x : Segment) :
    List (List Segment) :=
  jobs.set i (jobs.getD i [] ++ [x])

/-- The round-robin distribution loop (source lines 756-760): repeatedly
pop the largest remaining segment (the last, in ascending order) into the
next bucket in rotation.  The segments are supplied already reversed
(`fill_jobs` below), so the head of the list is the next pop. -/
def fill_go : List Segment → List (List Segment) → Nat → List (List Segment)
  | [], jobs, _ => jobs
  | big :: rest, jobs, j => fill_go rest (appendAt jobs (j % jobs.length) big) (j + 1)

def fill_jobs (segs : List Segment) (jobs : List (List Segment)) (j : Nat) :
    List (List Segment) :=
  fill_go segs.reverse jobs j

/-- The retained full-chromosome segments: one per table entry longer than
`minlen` (source lines 735-739 keep `seg.length > minlen`). -/
def retainedSegs (chroms : List (String × Int)) (minlen : Int) : List Segment :=
  (chroms.map Segment.ofChrom).filter (fun s => minlen < s.length)

/-- `split_genome(chroms, n, minlen)` (source lines 731-769): build the
retained full-chromosome segments, sort ascending by length, bisect the
longest until at least `n` segments exist, then distribute round-robin into
`n` buckets.  `assert n > 0` (source line 733) is modelled as `none` for
`n = 0`; the `assert n <= len(segs)` after the loop always holds when the
loop completes. -/
def split_genome (chroms : List (String × Int)) (n : Nat) (minlen : Int) :
    Option (List (List Segment)) :=
  if n = 0 then none
  else
    match bisect_loop n (sortSegs (retainedSegs chroms minlen)) with
    | none => none
    | some segs2 => some (fill_jobs segs2 (List.replicate n []) 0)

/-- Well-formedness of a segment: the `length` field is the span and the
coordinates are ordered and nonnegative. -/
def segWF (s : Segment) : Prop :=
  s.length = s.stop - s.start ∧ 0 ≤ s.start ∧ s.start ≤ s.stop

/-- The segment lies inside a retained chromosome of the table. -/
def inChrom (chroms : List (String × Int)) (minlen : Int) (s : Segment) : Prop :=
  ∃ p ∈ chroms, minlen < p.2 ∧ s.chrom = p.1 ∧ 0 ≤ s.start ∧ s.stop ≤ p.2

/-- Two segments do not overlap: different chromosomes or disjoint ranges. -/
def segDisj (s t : Segment) : Prop :=
  s.chrom ≠ t.chrom ∨ s.stop ≤ t.start ∨ t.stop ≤ s.start

/-- The invariant of the segmenter: every segment is well-formed and inside
a retained chromosome, and the segments are pairwise disjoint. -/
def goodList (chroms : List (String × Int)) (minlen : Int) (l : List Segment) : Prop :=
  (∀ s ∈ l, segWF s ∧ inChrom chroms minlen s) ∧ l.Pairwise segDisj

/-- C3 counterexample: bisecting the length-3 segment `c:[0,3)` yields
halves `c:[0,1)` and `c:[2,3)` of length 1 each — their lengths sum to
2, not 3 — and the actual `split` run on the table `[("c", 3)]` with
`n = 2`, `minlen = 1` outputs exactly those two segments, so position 1 of
chromosome `c` (with `0 ≤ 1 < 3`) is covered by neither bucket: the
round-trip has a gap at the midpoint of the odd-length bisection. -/
theorem split_genome_counterexample :
    (Segment.left ⟨"c", 0, 3, 3⟩).length = 1 ∧
    (Segment.right ⟨"c", 0, 3, 3⟩).length = 1 ∧
    (1 : Int) + 1 ≠ 3 ∧
    split_genome [("c", 3)] 2 1 =
      some [[⟨"c", 2, 3, 1⟩], [⟨"c", 0, 1, 1⟩]] ∧
    ¬((2 : Int) ≤ 1) ∧ ¬((1 : Int) < 1) ∧ (0 : Int) ≤ 1 ∧ (1 : Int) < 3 := by
  refine ⟨by decide, by decide, by decide, by decide, by decide, by decide,
    by decide, by decide⟩

lemma insertSeg_perm (s : Segment) (l : List Segment) :
    (insertSeg s l).Perm (s :: l) := by
  induction l with
  | nil => exact List.Perm.refl _
  | cons t ts ih =>
    unfold insertSeg
    by_cases h : s.length ≤ t.length
    · rw [if_pos h]
    · rw [if_neg h]
      exact (ih.cons t).trans (List.Perm.swap s t ts)

lemma sortSegs_perm (l : List Segment) : (sortSegs l).Perm l := by
  induction l with
  | nil => exact List.Perm.refl _
  | cons x xs ih =>
    unfold sortSegs at ih ⊢
    rw [List.foldr_cons]
    exact (insertSeg_perm x _).trans (ih.cons x)

lemma segDisj_symm : ∀ {s t : Segment}, segDisj s t → segDisj t s := by
  intro s t h
  rcases h with h | h | h
  · exact Or.inl (Ne.symm h)
  · exact Or.inr (Or.inr h)
  · exact Or.inr (Or.inl h)

lemma goodList_perm {chroms : List (String × Int)} {minlen : Int}
    {l l' : List Segment} (hperm : l.Perm l')
    (hg : goodList chroms minlen l) : goodList chroms minlen l' := by
  constructor
  · intro s hs
    exact hg.1 s (hperm.mem_iff.mpr hs)
  · exact (hperm.pairwise_iff (fun hab => segDisj_symm hab)).mp hg.2

lemma left_right_wf (s : Segment) (h : segWF s) :
    segWF s.left ∧ segWF s.right ∧ s.left.stop ≤ s.right.start := by
  obtain ⟨h1, h2, h3⟩ := h
  unfold segWF Segment.left Segment.right
  dsimp only
  omega

lemma left_right_bounds (s : Segment) (h : segWF s) :
    s.start ≤ s.left.start ∧ s.left.stop ≤ s.stop ∧
    s.start ≤ s.right.start ∧ s.right.stop ≤ s.stop := by
  obtain ⟨h1, h2, h3⟩ := h
  unfold Segment.left Segment.right
  dsimp only
  omega

lemma segDisj_sub {a b c : Segment} (hd : segDisj a b) (hc : b.chrom = c.chrom)
    (h1 : b.start ≤ c.start) (h2 : c.stop ≤ b.stop) : segDisj a c := by
  rcases hd with h | h | h
  · exact Or.inl (by rw [← hc]; exact h)
  · exact Or.inr (Or.inl (le_trans h h1))
  · exact Or.inr (Or.inr (le_trans h2 h))

lemma bisect_step_good (chroms : List (String × Int)) (minlen : Int)
    (segs : List Segment) (big : Segment) (hlast : segs.getLast? = some big)
    (hg : goodList chroms minlen segs) :
    goodList chroms minlen (sortSegs (segs.dropLast ++ [big.left, big.right])) := by
  refine goodList_perm (sortSegs_perm _).symm ?_
  have hdecomp : segs.dropLast ++ [big] = segs := List.dropLast_append_getLast? big hlast
  rw [← hdecomp] at hg
  obtain ⟨hmem, hpw⟩ := hg
  have hbig := hmem big (by rw [List.mem_append]; exact Or.inr (List.mem_singleton.mpr rfl))
  obtain ⟨hbigwf, hbigin⟩ := hbig
  have hlr := left_right_wf big hbigwf
  have hbounds := left_right_bounds big hbigwf
  rw [List.pairwise_append] at hpw
  obtain ⟨hpw1, _, hcross⟩ := hpw
  constructor
  · intro s hs
    rcases List.mem_append.mp hs with hmem1 | hmem2
    · exact hmem s (by rw [List.mem_append]; exact Or.inl hmem1)
    · obtain ⟨p, hp, hl1, hl2, hl3, hl4⟩ := hbigin
      rcases List.mem_cons.mp hmem2 with hseq | hmem3
      · subst hseq
        exact ⟨hlr.1, p, hp, hl1, hl2, hl3, le_trans hbounds.2.1 hl4⟩
      · rw [List.mem_singleton] at hmem3
        subst hmem3
        refine ⟨hlr.2.1, p, hp, hl1, hl2, le_trans hl3 hbounds.2.2.1,
          le_trans hbounds.2.2.2 hl4⟩
  · rw [List.pairwise_append]
    refine ⟨hpw1, ?_, ?_⟩
    · exact List.pairwise_cons.mpr
        ⟨fun t ht => by
          rw [List.mem_singleton] at ht
          subst ht
          exact Or.inr (Or.inl hlr.2.2),
         List.pairwise_singleton _ _⟩
    · intro a ha b hb
      have hd : segDisj a big := hcross a ha big (List.mem_singleton.mpr rfl)
      rcases List.mem_cons.mp hb with hbeq | hb2
      · subst hbeq
        exact segDisj_sub hd rfl hbounds.1 hbounds.2.1
      · rw [List.mem_singleton] at hb2
        subst hb2
        exact segDisj_sub hd rfl hbounds.2.2.1 hbounds.2.2.2

lemma bisect_go_good (chroms : List (String × Int)) (minlen : Int) (n : Nat) :
    ∀ (fuel : Nat) (segs segs9 : List Segment),
      bisect_go n fuel segs = some segs9 →
      goodList chroms minlen segs → goodList chroms minlen segs9 := by
  intro fuel
  induction fuel with
  | zero =>
    intro segs segs9 h hg
    rw [show bisect_go n 0 segs = some segs from rfl] at h
    rw [← Option.some_injective _ h]
    exact hg
  | succ f ih =>
    intro segs segs9 h hg
    rcases hlast : segs.getLast? with _ | big
    · unfold bisect_go at h
      rw [hlast] at h
      cases h
    · unfold bisect_go at h
      rw [hlast] at h
      exact ih _ _ h (bisect_step_good chroms minlen segs big hlast hg)

lemma retained_good (chroms : List (String × Int)) (minlen : Int) (hmin : 0 ≤ minlen)
    (hnames : chroms.Pairwise (fun p q => p.1 ≠ q.1)) :
    goodList chroms minlen (retainedSegs chroms minlen) := by
  constructor
  · intro s hs
    unfold retainedSegs at hs
    rw [List.mem_filter] at hs
    obtain ⟨hmemmap, hpred⟩ := hs
    rw [List.mem_map] at hmemmap
    obtain ⟨p, hp, hps⟩ := hmemmap
    subst hps
    have hlen : minlen < p.2 := of_decide_eq_true hpred
    refine ⟨⟨?_, le_refl 0, ?_⟩, p, hp, hlen, rfl, le_refl 0, le_refl p.2⟩
    · show p.2 = p.2 - 0
      omega
    · show (0 : Int) ≤ p.2
      omega
  · unfold retainedSegs
    have h1 : (chroms.map Segment.ofChrom).Pairwise
        (fun s t => s.chrom ≠ t.chrom) :=
      hnames.map _ (fun a b hab => hab)
    exact (h1.sublist (List.filter_sublist _)).imp (fun hab => Or.inl hab)

lemma appendAt_length (jobs : List (List Segment)) (i : Nat) (x : Segment) :
    (appendAt jobs i x).length = jobs.length := by
  unfold appendAt
  exact List.length_set ..

lemma appendAt_flatten (jobs : List (List Segment)) (i : Nat) (x : Segment)
    (hi : i < jobs.length) :
    (appendAt jobs i x).flatten.Perm (jobs.flatten ++ [x]) := by
  induction jobs generalizing i with
  | nil => exact absurd hi (Nat.not_lt_zero i)
  | cons a as ih =>
    rcases i with _ | i2
    · show ((a ++ [x]) :: as).flatten.Perm ((a :: as).flatten ++ [x])
      rw [List.flatten_cons, List.flatten_cons, List.append_assoc, List.append_assoc]
      exact List.Perm.append_left a (List.perm_append_comm)
    · show (a :: appendAt as i2 x).flatten.Perm ((a :: as).flatten ++ [x])
      rw [List.flatten_cons, List.flatten_cons, List.append_assoc]
      exact List.Perm.append_left a (ih i2 (Nat.lt_of_succ_lt_succ hi))

lemma fill_go_flatten :
    ∀ (segs : List Segment) (jobs : List (List Segment)) (j : Nat),
      0 < jobs.length →
      (fill_go segs jobs j).flatten.Perm (jobs.flatten ++ segs) := by
  intro segs
  induction segs with
  | nil =>
    intro jobs j _
    show jobs.flatten.Perm (jobs.flatten ++ [])
    rw [List.append_nil]
  | cons big rest ih =>
    intro jobs j h
    show (fill_go rest (appendAt jobs (j % jobs.length) big) (j + 1)).flatten.Perm _
    have hlen : 0 < (appendAt jobs (j % jobs.length) big).length := by
      rw [appendAt_length]; exact h
    refine ((ih _ (j + 1) hlen).trans ?_)
    refine (List.Perm.append_right rest
      (appendAt_flatten jobs _ big (Nat.mod_lt j h))).trans ?_
    rw [List.append_assoc]
    exact List.Perm.refl _

lemma flatten_replicate_nil (n : Nat) :
    (List.replicate n ([] : List Segment)).flatten = [] := by
  induction n with
  | zero => rfl
  | succ k ih => rw [List.replicate_succ, List.flatten_cons, ih]; rfl

/-- C3 (amended): bisecting a segment of length `L` yields a left half
`[start, start + L/2)` and a right half `[end - L/2, end)` on the same
chromosome, **each** of length `⌊L/2⌋`; for a well-formed segment the
halves are in order and they tile the parent exactly (lengths summing to
`L` with no gap) **iff `L` is even** — for odd `L` the lengths sum to
`L - 1`, leaving a one-position gap at the midpoint.  Consequently, for
every chromosome-length table with distinct names and every `n > 0` for
which `split` succeeds, the flattened output buckets form pairwise-disjoint
well-formed segments, each contained in a retained chromosome's range (no
overlaps, no cross-chromosome segments), and when `n` does not exceed the
number of retained chromosomes (so no bisection occurs) the flattened
output is exactly the retained full-chromosome segments — a gap-free exact
cover; with odd-length bisections the cover acquires midpoint gaps. -/
theorem split_genome_properties :
    (∀ s : Segment,
      s.left.chrom = s.chrom ∧ s.right.chrom = s.chrom ∧
      s.left.start = s.start ∧ s.right.stop = s.stop ∧
      s.left.length = s.length / 2 ∧ s.right.length = s.length / 2 ∧
      (segWF s →
        segWF s.left ∧ segWF s.right ∧ s.left.stop ≤ s.right.start ∧
        (s.left.stop = s.right.start ↔ s.length % 2 = 0) ∧
        (s.length % 2 = 0 → s.left.length + s.right.length = s.length) ∧
        (s.length % 2 = 1 → s.left.length + s.right.length = s.length - 1))) ∧
    (∀ (chroms : List (String × Int)) (n : Nat) (minlen : Int)
        (jobs : List (List Segment)),
      0 ≤ minlen →
      chroms.Pairwise (fun p q => p.1 ≠ q.1) →
      split_genome chroms n minlen = some jobs →
      goodList chroms minlen jobs.flatten ∧
      (n ≤ (retainedSegs chroms minlen).length →
        jobs.flatten.Perm (retainedSegs chroms minlen))) := by
  constructor
  · intro s
    refine ⟨rfl, rfl, rfl, rfl, ?_, ?_, ?_⟩
    · show s.start + s.length / 2 - s.start = s.length / 2
      omega
    · show s.stop - (s.stop - s.length / 2) = s.length / 2
      omega
    · intro hwf
      obtain ⟨h1, h2, h3⟩ := hwf
      unfold segWF Segment.left Segment.right
      dsimp only
      omega
  · intro chroms n minlen jobs hmin hnames hsplit
    unfold split_genome at hsplit
    split at hsplit
    · cases hsplit
    · next hn =>
      split at hsplit
      · cases hsplit
      · next segs2 heq =>
        have hjobs : jobs = fill_jobs segs2 (List.replicate n []) 0 :=
          (Option.some_injective _ hsplit).symm
        have hnpos : 0 < n := Nat.pos_of_ne_zero hn
        have hflat : jobs.flatten.Perm segs2 := by
          rw [hjobs]
          unfold fill_jobs
          refine (fill_go_flatten segs2.reverse (List.replicate n []) 0 ?_).trans ?_
          · rw [List.length_replicate]
            exact hnpos
          · rw [flatten_replicate_nil, List.nil_append]
            exact List.reverse_perm segs2
        have hgood0 : goodList chroms minlen (sortSegs (retainedSegs chroms minlen)) :=
          goodList_perm (sortSegs_perm _).symm (retained_good chroms minlen hmin hnames)
        have hgood2 : goodList chroms minlen segs2 :=
          bisect_go_good chroms minlen n _ _ _ heq hgood0
        refine ⟨goodList_perm hflat.symm hgood2, ?_⟩
        intro hle
        have hlen : (sortSegs (retainedSegs chroms minlen)).length =
            (retainedSegs chroms minlen).length := (sortSegs_perm _).length_eq
        have hz : n - (sortSegs (retainedSegs chroms minlen)).length = 0 := by omega
        unfold bisect_loop at heq
        rw [hz] at heq
        rw [show bisect_go n 0 (sortSegs (retainedSegs chroms minlen)) =
            some (sortSegs (retainedSegs chroms minlen)) from rfl] at heq
        have hs2 : sortSegs (retainedSegs chroms minlen) = segs2 :=
          Option.some_injective _ heq
        have h4 : segs2.Perm (retainedSegs chroms minlen) := by
          rw [← hs2]
          exact sortSegs_perm _
        exact hflat.trans h4

/-- Witness for C3's amended statement: part (i) at the even-length segment
`c:[0,4)` and part (ii) at the two-chromosome table `[("a",5), ("b",4)]`
with `n = 2` and `minlen = 0`, where `split` performs no bisection. -/
theorem split_genome_properties_witness :
    (segWF (Segment.mk "c" 0 4 4).left ∧ segWF (Segment.mk "c" 0 4 4).right ∧
      (Segment.mk "c" 0 4 4).left.stop ≤ (Segment.mk "c" 0 4 4).right.start ∧
      ((Segment.mk "c" 0 4 4).left.stop = (Segment.mk "c" 0 4 4).right.start ↔
        (Segment.mk "c" 0 4 4).length % 2 = 0) ∧
      ((Segment.mk "c" 0 4 4).length % 2 = 0 →
        (Segment.mk "c" 0 4 4).left.length + (Segment.mk "c" 0 4 4).right.length =
          (Segment.mk "c" 0 4 4).length) ∧
      ((Segment.mk "c" 0 4 4).length % 2 = 1 →
        (Segment.mk "c" 0 4 4).left.length + (Segment.mk "c" 0 4 4).right.length =
          (Segment.mk "c" 0 4 4).length - 1)) ∧
    goodList [("a", 5), ("b", 4)] 0
      ([[Segment.mk "a" 0 5 5], [Segment.mk "b" 0 4 4]] : List (List Segment)).flatten ∧
    (2 ≤ (retainedSegs [("a", 5), ("b", 4)] 0).length →
      ([[Segment.mk "a" 0 5 5], [Segment.mk "b" 0 4 4]] :
        List (List Segment)).flatten.Perm (retainedSegs [("a", 5), ("b", 4)] 0)) := by
  have h2 := split_genome_properties.2 [("a", 5), ("b", 4)] 2 0
    [[Segment.mk "a" 0 5 5], [Segment.mk "b" 0 4 4]]
    (by decide) (by decide) (by decide)
  exact ⟨(split_genome_properties.1 (Segment.mk "c" 0 4 4)).2.2.2.2.2.2
      ⟨by decide, by decide, by decide⟩, h2.1, h2.2⟩

end VCFComp
